import Mathlib

/-!
Verification development for the lila-socket WebSocket gateway.

The Rust sources are embedded shallowly:
* `src/model.rs`   — `GameId` and its `FromStr` instance.
* `src/analysis.rs`— the `piotr` square encoding, variant keys, opening lookup,
  and the `GetOpening` / `GetDests` responders.
* `src/main.rs`    — the `UserSocket` authentication state machine (`set_user`,
  `on_notified`, `on_following_onlines`), the `by_game` watch bookkeeping of
  `Socket::on_message` / `Socket::on_close`, and the `mlat` handling of
  `App::received` / `Socket::on_message`.

The chess rules engine (shakmaty) is an external library; following the spec
("we specify only the operations we consume from it"), positions are modelled
as the data the gateway reads off them: the legal move list and the occupied
squares of the side to move, in iteration order.
-/

namespace LilaSocket

/-- An opaque handle to a single WebSocket connection.  The ws library
assigns each connection a stable token used for identity comparisons
(`sender.token()` in the source). -/
structure Sender where
  token : Nat
deriving DecidableEq, Repr

/-- User ids are strings; the validating constructor lives outside `src/`
and none of the claims depend on its details. -/
abbrev UserId := String

/-- `GameId(ArrayString<[u8; 8]>)` from `src/model.rs`: a string stored
inline in an 8-byte buffer.  Equality is derived, i.e. byte-exact on the
contents. -/
structure GameId where
  val : String
deriving DecidableEq, Repr

/-- `InvalidGameId`. -/
structure InvalidGameId where
deriving DecidableEq, Repr

/-- `impl FromStr for GameId` from `src/model.rs`:
`ArrayString::<[u8; 8]>::from(s)` succeeds exactly when the UTF-8 encoding
of `s` fits in the 8-byte buffer. -/
def gameIdFromStr (s : String) : Except InvalidGameId GameId :=
  if s.utf8ByteSize ≤ 8 then .ok { val := s } else .error {}

/-- Messages the gateway publishes to the backend (`LilaIn` in `src/ipc.rs`,
restricted to the constructors the embedded code emits). -/
inductive LilaIn where
  | Connect (uid : UserId)
  | Disconnect (uid : UserId)
  | Watch (g : GameId)
  | Unwatch (g : GameId)
  | Notified (uid : UserId)
  | Friends (uid : UserId)
  | Connections (n : Nat)
deriving DecidableEq, Repr

/-- Rust's `Vec::swap_remove(i)`: the element at index `i` is removed and
replaced by the last element (for `i` the last index, simply popped).
Callers in the source always pass an index obtained from `position(..)`,
hence in bounds. -/
def swapRemove (l : List α) (i : Nat) : List α :=
  match l.getLast? with
  | none => l
  | some last => if i + 1 = l.length then l.dropLast else l.dropLast.set i last

/-- Number of occurrences of connections with token `tok` in a sender list. -/
def cnt (l : List Sender) (tok : Nat) : Nat :=
  l.countP (fun s => s.token = tok)

lemma swapRemove_of_ne_nil (l : List α) (hne : l ≠ []) (i : Nat) :
    swapRemove l i
      = if i + 1 = l.length then l.dropLast else l.dropLast.set i (l.getLast hne) := by
  unfold swapRemove
  rw [List.getLast?_eq_getLast l hne]

lemma countP_set (p : α → Bool) (t : List α) (i : Nat) (v : α) (h : i < t.length) :
    (t.set i v).countP p = t.countP p - (if p t[i] then 1 else 0) + (if p v then 1 else 0) := by
  have h1 : t.countP p
      = (t.take i).countP p + ((if p t[i] then 1 else 0) + (t.drop (i+1)).countP p) := by
    conv_lhs => rw [← List.take_append_drop i t, List.drop_eq_getElem_cons h]
    simp only [List.countP_append, List.countP_cons]
    omega
  rw [List.set_eq_take_cons_drop _ h]
  simp only [List.countP_append, List.countP_cons, h1]
  omega

lemma length_swapRemove (l : List α) (i : Nat) (h : i < l.length) :
    (swapRemove l i).length = l.length - 1 := by
  have hne : l ≠ [] := by intro e; subst e; simp at h
  rw [swapRemove_of_ne_nil l hne]
  split <;> simp

lemma countP_swapRemove (p : α → Bool) (l : List α) (i : Nat) (h : i < l.length) :
    (swapRemove l i).countP p = l.countP p - (if p (l[i]) then 1 else 0) := by
  have hne : l ≠ [] := by intro e; subst e; simp at h
  have hsplit : l.countP p = l.dropLast.countP p + (if p (l.getLast hne) then 1 else 0) := by
    conv_lhs => rw [← List.dropLast_append_getLast hne]
    simp only [List.countP_append, List.countP_cons, List.countP_nil]
    omega
  rw [swapRemove_of_ne_nil l hne]
  split
  · rename_i hlen
    have hi : i = l.length - 1 := by omega
    have hlast : l.getLast hne = l[i] := by
      rw [List.getLast_eq_getElem]
      simp [hi]
    rw [hlast] at hsplit
    omega
  · rename_i hlen
    have hi : i < l.dropLast.length := by
      simp only [List.length_dropLast]
      omega
    rw [countP_set p _ i _ hi]
    have hdl : l.dropLast[i] = l[i] := List.getElem_dropLast l i hi
    have hge : p l[i] = true → 1 ≤ l.dropLast.countP p := by
      intro hp
      have hmem : l.dropLast[i] ∈ l.dropLast := List.getElem_mem hi
      have := List.countP_pos_iff (p := p) (l := l.dropLast) |>.mpr ⟨_, hmem, by rw [hdl]; exact hp⟩
      omega
    rw [hdl]
    have hlen2 : l.dropLast.length = l.length - 1 := by simp
    rcases Bool.eq_false_or_eq_true (p l[i]) with hp | hp <;>
      rcases Bool.eq_false_or_eq_true (p (l.getLast hne)) with hq | hq
    all_goals
      try have h1 : 1 ≤ List.countP p l.dropLast := hge (by assumption)
    all_goals
      simp [hp, hq] at hsplit ⊢
    all_goals omega

/-! ## `src/analysis.rs`: the piotr square encoding -/

/-- Chess squares, indexed 0..63 as in shakmaty: `A1 = 0`, `B1 = 1`, …,
`C4 = 26`, `E7 = 52`, `G8 = 62`, `H8 = 63`. -/
abbrev Square := Fin 64

/-- `fn piotr(sq: Square) -> char` from `src/analysis.rs`.  Square constants
from the source: `C4 = 26`, `E7 = 52`, `G8 = 62`. -/
def piotr (sq : Square) : Char :=
  if sq.val < 26 then
    Char.ofNat (('a').toNat + sq.val)
  else if sq.val < 52 then
    Char.ofNat (('A').toNat + (sq.val - 26))
  else if sq.val < 62 then
    Char.ofNat (('0').toNat + (sq.val - 52))
  else if sq.val = 62 then
    '!'
  else
    '?'

/-! ## `src/analysis.rs`: variants, opening lookup, responders -/

/-- `VariantKey` from `src/analysis.rs` (the serde tags of the wire form). -/
inductive VariantKey where
  | Standard
  | FromPosition
  | Chess960
  | Antichess
  | KingOfTheHill
  | ThreeCheck
  | Atomic
  | Horde
  | RacingKings
  | Crazyhouse
deriving DecidableEq, Repr

/-- `EffectiveVariantKey` from `src/analysis.rs`. -/
inductive EffectiveVariantKey where
  | Standard
  | Antichess
  | KingOfTheHill
  | ThreeCheck
  | Atomic
  | Horde
  | RacingKings
  | Crazyhouse
deriving DecidableEq, Repr

/-- `EffectiveVariantKey::is_opening_sensible`. -/
def EffectiveVariantKey.is_opening_sensible : EffectiveVariantKey → Bool
  | .Standard | .Crazyhouse | .ThreeCheck | .KingOfTheHill => true
  | _ => false

/-- `impl From<VariantKey> for EffectiveVariantKey`. -/
def effectiveOf : VariantKey → EffectiveVariantKey
  | .Standard | .FromPosition | .Chess960 => .Standard
  | .Antichess => .Antichess
  | .KingOfTheHill => .KingOfTheHill
  | .ThreeCheck => .ThreeCheck
  | .Atomic => .Atomic
  | .Horde => .Horde
  | .RacingKings => .RacingKings
  | .Crazyhouse => .Crazyhouse

/-- A parsed FEN (shakmaty `Fen`), reduced to the fields the gateway touches:
an opaque core (board, turn, castling, en passant) plus the two optional
annotations `lookup_opening` strips. -/
structure Fen where
  epd_core : String
  pockets : Option String
  remaining_checks : Option String
deriving DecidableEq, Repr

/-- An opening record of the static book. -/
structure Opening where
  eco : String
  name : String
deriving DecidableEq, Repr

/-- `FenOpts::new().epd(&fen)` of the external library: the EPD rendering
includes pocket and remaining-check annotations when present. -/
def renderEpd (f : Fen) : String :=
  f.epd_core
    ++ (match f.pockets with | some p => "[" ++ p ++ "]" | none => "")
    ++ (match f.remaining_checks with | some c => " +" ++ c | none => "")

/-- `fn lookup_opening(mut fen: Fen)` from `src/analysis.rs`: clear the
pockets and the remaining checks, then query the opening book by EPD.
The book itself (`FULL_OPENING_DB`, generated outside `src/`) is a
parameter `db`. -/
def lookup_opening (db : String → Option Opening) (fen : Fen) : Option Opening :=
  let fen := { fen with pockets := none, remaining_checks := none }
  db (renderEpd fen)

/-- A legal move as the gateway consumes it: `m.from()` (`none` for drops)
and `m.to()`. -/
structure Move where
  from_sq : Option Square
  to_sq : Square
deriving DecidableEq, Repr

/-- A valid position, reduced to the engine operations the gateway calls:
`pos.legal_moves(..)` and `pos.us()` (squares of the side to move, in the
engine's iteration order). -/
structure Position where
  legalList : List Move
  usList : List Square
deriving DecidableEq, Repr

/-- The external chess rules engine: FEN parsing and variant-checked
position construction (`fen.parse()` and `EffectiveVariantKey::position`). -/
structure Engine where
  parseFen : String → Option Fen
  position : EffectiveVariantKey → Fen → Option Position

/-- `GetOpening` request payload. -/
structure GetOpening where
  variant : Option VariantKey
  path : String
  fen : String

/-- `OpeningResponse`. -/
structure OpeningResponse where
  path : String
  opening : Opening
deriving DecidableEq, Repr

/-- `GetOpening::respond` from `src/analysis.rs`. -/
def GetOpening.respond (engine : Engine) (db : String → Option Opening)
    (self : GetOpening) : Option OpeningResponse :=
  let variant := effectiveOf (self.variant.getD VariantKey.Standard)
  if variant.is_opening_sensible then
    ((engine.parseFen self.fen).bind (lookup_opening db)).map
      (fun opening => { path := self.path, opening })
  else
    none

/-- `GetDests` request payload. -/
structure GetDests where
  variant : Option VariantKey
  fen : String
  path : String
  chapter_id : Option String

/-- `DestsResponse`. -/
structure DestsResponse where
  path : String
  dests : String
  opening : Option Opening
  chapter_id : Option String
deriving DecidableEq, Repr

/-- `DestsFailure`. -/
structure DestsFailure where
deriving DecidableEq, Repr

/-- The dests-string loop of `GetDests::respond`, verbatim: for each square
of the side to move, the legal moves departing from it; if there are any,
`if mem::replace(&mut first, false) { dests.push(' ') }` (which pushes the
space when the *old* value of `first` is `true`), then the origin's piotr
character and one piotr character per destination. -/
def destsString (pos : Position) : String := Id.run do
  let legals := pos.legalList
  let mut dests := ""
  let mut first := true
  for from_sq in pos.usList do
    let from_here := legals.filter (fun m => m.from_sq = some from_sq)
    if !from_here.isEmpty then
      if first then
        dests := dests.push ' '
      first := false
      dests := dests.push (piotr from_sq)
      for m in from_here do
        dests := dests.push (piotr m.to_sq)
  return dests

/-- `GetDests::respond` from `src/analysis.rs`.  Note that the attached
opening is `lookup_opening(fen)` with no variant gate. -/
def GetDests.respond (engine : Engine) (db : String → Option Opening)
    (self : GetDests) : Except DestsFailure DestsResponse :=
  let variant := effectiveOf (self.variant.getD VariantKey.Standard)
  match engine.parseFen self.fen with
  | none => .error {}
  | some fen =>
    match engine.position variant fen with
    | none => .error {}
    | some pos =>
      .ok { path := self.path
            dests := destsString pos
            opening := lookup_opening db fen
            chapter_id := self.chapter_id }

/-! ## `src/main.rs`: the `UserSocket` authentication state machine -/

/-- `SocketAuth`. -/
inductive SocketAuth where
  | Requested
  | Authenticated (uid : UserId)
  | Anonymous
deriving DecidableEq, Repr

/-- `UserSocket` (without the `&'static App` back-pointer; the `by_user`
table it reaches through it is passed explicitly). -/
structure UserSocketSt where
  sender : Sender
  auth : SocketAuth
  pending_notified : Bool
  pending_following_onlines : Bool
deriving DecidableEq, Repr

/-- The `by_user` routing table.  The source uses a `HashMap<UserId,
Vec<Sender>>` that never stores an empty vector (entries are created
non-empty and removed when emptied), so an absent key is modelled as `[]`. -/
abbrev ByUser := UserId → List Sender

/-- `UserSocket::on_notified`: clear the pending flag, then dispatch on the
current auth state (re-arming the flag while still `Requested`). -/
def on_notified (sock : UserSocketSt) : UserSocketSt × List LilaIn :=
  let sock := { sock with pending_notified := false }
  match sock.auth with
  | .Requested => ({ sock with pending_notified := true }, [])
  | .Authenticated uid => (sock, [LilaIn.Notified uid])
  | .Anonymous => (sock, [])

/-- `UserSocket::on_following_onlines`, symmetric to `on_notified`. -/
def on_following_onlines (sock : UserSocketSt) : UserSocketSt × List LilaIn :=
  let sock := { sock with pending_following_onlines := false }
  match sock.auth with
  | .Requested => ({ sock with pending_following_onlines := true }, [])
  | .Authenticated uid => (sock, [LilaIn.Friends uid])
  | .Anonymous => (sock, [])

/-- `UserSocket::set_user` from `src/main.rs`.  Returns the updated
`by_user` table, the updated socket, and the published messages in
publication order; `none` models the `expect` panics on the removal path
(sender not found in its own `by_user` entry — an invariant violation the
source aborts on).

Step 1 ("Connected"): on `Some(uid)`, append the sender to `by_user[uid]`,
publishing `connect/<uid>` iff the entry was absent, and set the new auth
to `Authenticated(uid)`; on `None` the new auth is `Anonymous`.

Step 2: dispatch on the *previous* auth state (`mem::replace`):
`Authenticated(old)` removes the sender from `by_user[old]` by token
(`swap_remove`), dropping the key and publishing `disconnect/<old>` if the
list empties; `Requested` replays the pending intents against the new
state; `Anonymous` does nothing. -/
def set_user (by_user : ByUser) (sock : UserSocketSt) (maybe_uid : Option UserId) :
    Option (ByUser × UserSocketSt × List LilaIn) :=
  let step1 : ByUser × SocketAuth × List LilaIn :=
    match maybe_uid with
    | some uid =>
      ((fun u => if u = uid then by_user uid ++ [sock.sender] else by_user u),
       SocketAuth.Authenticated uid,
       if by_user uid = [] then [LilaIn.Connect uid] else [])
    | none => (by_user, SocketAuth.Anonymous, [])
  let bu := step1.1
  let old := sock.auth
  let sock := { sock with auth := step1.2.1 }
  let pub1 := step1.2.2
  match old with
  | .Authenticated uid =>
    match (bu uid).findIdx? (fun s => s.token = sock.sender.token) with
    | none => none
    | some idx =>
      let entry := swapRemove (bu uid) idx
      if entry = [] then
        some ((fun u => if u = uid then [] else bu u), sock,
              pub1 ++ [LilaIn.Disconnect uid])
      else
        some ((fun u => if u = uid then entry else bu u), sock, pub1)
  | .Requested =>
    let stepN := if sock.pending_notified then on_notified sock else (sock, [])
    let sock := stepN.1
    let stepF := if sock.pending_following_onlines then on_following_onlines sock
                 else (sock, [])
    some (bu, stepF.1, pub1 ++ stepN.2 ++ stepF.2)
  | .Anonymous => some (bu, sock, pub1)

/-! ## `src/main.rs`: game watching (`startWatching` arm and `on_close`) -/

/-- The `by_game` routing table (`HashMap<GameId, Vec<Sender>>`; as for
`by_user`, an absent key is modelled as `[]` since the source never stores
an empty vector). -/
abbrev ByGame := GameId → List Sender

/-- The per-socket state and shared tables touched by the `StartWatching`
arm: the socket's `watching` set (a `HashSet<GameId>`, modelled as a
duplicate-free list), `by_game`, and the watched-games LRU viewed through
`peek` (`fen` and `lm` per game; absence is correct). -/
structure WatchCtx where
  watching : List GameId
  by_game : ByGame
  watched_games : GameId → Option (String × String)

/-- One iteration of the `StartWatching` loop of `Socket::on_message`:
`if self.watching.insert(game)` (false, i.e. a no-op, when already
watching); on fresh insertion, send the cached game state if any, then add
the sender to `by_game[g]`, publishing `watch/<g>` iff the entry was
absent.  Returns the new context, the published messages, and the `fen`
frames sent to this socket as `(game, fen, lm)` triples. -/
def start_watching_one (sender : Sender) (st : WatchCtx) (g : GameId) :
    WatchCtx × List LilaIn × List (GameId × String × String) :=
  if g ∈ st.watching then
    (st, [], [])
  else
    let sends := match st.watched_games g with
      | some (fen, lm) => [(g, fen, lm)]
      | none => []
    let pubs := if st.by_game g = [] then [LilaIn.Watch g] else []
    ({ st with
        watching := st.watching ++ [g]
        by_game := fun x => if x = g then st.by_game g ++ [sender] else st.by_game x },
     pubs, sends)

/-- The whole `StartWatching` arm: the loop over the listed games. -/
def start_watching (sender : Sender) (st : WatchCtx) :
    List GameId → WatchCtx × List LilaIn × List (GameId × String × String)
  | [] => (st, [], [])
  | g :: rest =>
    let step := start_watching_one sender st g
    let restStep := start_watching sender step.1 rest
    (restStep.1, step.2.1 ++ restStep.2.1, step.2.2 ++ restStep.2.2)

/-- The `by_game` cleanup of `Socket::on_close`: for every game of the
socket's `watching` set, remove the sender (found by token, removed by
`swap_remove`) from `by_game[g]`, dropping the key and publishing
`unwatch/<g>` when the list empties.  `none` models the `expect` panics
(game missing from `by_game`, or sender missing from the watcher list). -/
def close_games (tok : Nat) (by_game : ByGame) :
    List GameId → Option (ByGame × List LilaIn)
  | [] => some (by_game, [])
  | g :: rest =>
    match (by_game g).findIdx? (fun s => s.token = tok) with
    | none => none
    | some idx =>
      let watchers := swapRemove (by_game g) idx
      let pubs := if watchers = [] then [LilaIn.Unwatch g] else []
      match close_games tok (fun x => if x = g then watchers else by_game x) rest with
      | none => none
      | some (bg, pubs2) => some (bg, pubs ++ pubs2)

/-! ## `src/main.rs`: move latency (`App::received` and the `moveLat` arm) -/

/-- The fields of `App` the move-latency paths touch: the `mlat` atomic,
the signed connection counter, and the `watching_mlat` set (a
`HashSet<Sender>`, modelled as a duplicate-free list). -/
structure App where
  mlat : Nat
  connection_count : Int
  watching_mlat : List Sender
deriving Repr

/-- The move-latency fields as `App::new` initialises them:
`mlat: AtomicU32::new(u32::max_value())` and a zero connection count. -/
def App.initial : App :=
  { mlat := 4294967295, connection_count := 0, watching_mlat := [] }

/-- The JSON frame `serde_json` produces for `SocketIn::MoveLatency(v)`
(tag `"t"`, content `"d"`). -/
def socketInMlatJson (v : Nat) : String :=
  "\x7b\"t\":\"mlat\",\"d\":" ++ toString v ++ "\x7d"

/-- The `LilaOut::MoveLatency` arm of `App::received`: publish
`connections/<max(0, connection_count) as u32>`, store the new value into
the `mlat` atomic, and send the new value to every watching socket.
Returns the new state, the published messages, and the frames sent per
sender. -/
def received_move_latency (app : App) (v : Nat) :
    App × List LilaIn × List (Sender × String) :=
  let pubs := [LilaIn.Connections (max 0 app.connection_count).toNat]
  let app2 := { app with mlat := v }
  let sends := app.watching_mlat.map (fun s => (s, socketInMlatJson v))
  (app2, pubs, sends)

/-- The `SocketOut::MoveLatency` arm of `Socket::on_message`: on `d = true`,
`watching_mlat.insert(sender)`, and only when the insertion is fresh send
the current `mlat` snapshot back; on `d = false`, remove the sender. -/
def on_message_move_latency (app : App) (sender : Sender) (d : Bool) :
    App × List (Sender × String) :=
  if d then
    if sender ∈ app.watching_mlat then
      (app, [])
    else
      ({ app with watching_mlat := app.watching_mlat ++ [sender] },
       [(sender, socketInMlatJson app.mlat)])
  else
    ({ app with watching_mlat := app.watching_mlat.filter (fun s => ¬ s = sender) }, [])

/-! ## Claim theorems -/

set_option maxRecDepth 4096 in
/-- C8: the piotr square encoding maps squares 0..63, in order, onto the
64-character alphabet `a..z, A..Z, 0..9, !, ?` (a1..b4 → a..z, c4..d7 →
A..Z, e7..f8 → 0..9, g8 → `!`, h8 → `?`), and it is injective, so
distinct squares always map to distinct characters. -/
theorem piotr_alphabet_bijection :
    ((List.finRange 64).map piotr).asString
        = "abcdefghijklmnopqrstuvwxyzABCDEFGHIJKLMNOPQRSTUVWXYZ0123456789!?"
      ∧ Function.Injective piotr := by
  constructor
  · decide
  · decide

/-- C9, counterexample: `GameId::from_str` accepts `"abc"`, a 3-character
string, refuting "parsing succeeds if and only if the input is an
8-character ASCII string". -/
theorem gameIdFromStr_accepts_short :
    gameIdFromStr "abc" = .ok { val := "abc" } ∧ "abc".length ≠ 8 := by
  constructor
  · rfl
  · decide

/-- C9, amended: parsing a string as a `GameId` succeeds iff the UTF-8
encoding of the input is at most 8 bytes (the capacity of the backing
`ArrayString<[u8; 8]>`), the parsed id carries the input verbatim, and
`GameId` equality is exactly equality of the underlying strings. -/
theorem gameIdFromStr_spec :
    (∀ s : String, (∃ g, gameIdFromStr s = .ok g ∧ g.val = s) ↔ s.utf8ByteSize ≤ 8)
    ∧ (∀ a b : GameId, a = b ↔ a.val = b.val) := by
  constructor
  · intro s
    unfold gameIdFromStr
    split
    · rename_i hle
      exact ⟨fun _ => hle, fun _ => ⟨⟨s⟩, rfl, rfl⟩⟩
    · rename_i hgt
      constructor
      · rintro ⟨g, hg, _⟩
        cases hg
      · intro hle
        exact absurd hle hgt
  · intro a b
    cases a
    cases b
    simp

/-- Witness for `gameIdFromStr_spec` at the 8-byte input `"abcdefgh"`. -/
theorem gameIdFromStr_spec_w :
    ("abcdefgh".utf8ByteSize ≤ 8)
    ∧ (∃ g, gameIdFromStr "abcdefgh" = .ok g ∧ g.val = "abcdefgh") :=
  ⟨by decide, (gameIdFromStr_spec.1 "abcdefgh").mpr (by decide)⟩

/-- C10: `App::new` initialises the `mlat` atomic to `u32::MAX`, so a
`moveLat d=true` message processed before any backend mlat event receives
the snapshot frame with 4294967295 (not 0, and not no message). -/
theorem initial_mlat_snapshot :
    App.initial.mlat = 4294967295
    ∧ ∀ s : Sender, on_message_move_latency App.initial s true
        = ({ App.initial with watching_mlat := [s] },
           [(s, "\x7b\"t\":\"mlat\",\"d\":4294967295\x7d")]) := by
  refine ⟨rfl, fun s => ?_⟩
  have hjson : socketInMlatJson 4294967295 = "\x7b\"t\":\"mlat\",\"d\":4294967295\x7d" := by rfl
  simp [on_message_move_latency, App.initial, hjson]

/-- C7, counterexample: a `moveLat d=true` from a socket already in
`watching_mlat` sends no snapshot (the send is guarded by the freshness
of the `HashSet::insert`), refuting "every moveLat message with d=true …
immediately sends that socket the current mlat snapshot". -/
theorem moveLat_no_resend :
    on_message_move_latency { mlat := 5, connection_count := 0, watching_mlat := [⟨1⟩] } ⟨1⟩ true
      = ({ mlat := 5, connection_count := 0, watching_mlat := [⟨1⟩] }, []) := by
  rfl

/-- C7, amended: `moveLat d=true` ensures the sender is in
`watching_mlat` and sends the current mlat snapshot iff the sender was
not already present (a repeat d=true is a complete no-op); `d=false`
removes the sender and sends nothing. -/
theorem moveLat_spec :
    ∀ (app : App) (s : Sender),
      (s ∈ (on_message_move_latency app s true).1.watching_mlat)
      ∧ ((on_message_move_latency app s true).2
          = if s ∈ app.watching_mlat then [] else [(s, socketInMlatJson app.mlat)])
      ∧ (s ∈ app.watching_mlat → on_message_move_latency app s true = (app, []))
      ∧ (s ∉ (on_message_move_latency app s false).1.watching_mlat)
      ∧ ((on_message_move_latency app s false).2 = []) := by
  intro app s
  unfold on_message_move_latency
  by_cases h : s ∈ app.watching_mlat <;> simp [h]

/-- Witness for `moveLat_spec`: the already-watching case at a concrete
state. -/
theorem moveLat_spec_w :
    ((⟨1⟩ : Sender) ∈ ({ mlat := 5, connection_count := 0, watching_mlat := [⟨1⟩] } : App).watching_mlat)
    ∧ on_message_move_latency { mlat := 5, connection_count := 0, watching_mlat := [⟨1⟩] } ⟨1⟩ true
        = ({ mlat := 5, connection_count := 0, watching_mlat := [⟨1⟩] }, []) :=
  ⟨by simp, (moveLat_spec { mlat := 5, connection_count := 0, watching_mlat := [⟨1⟩] } ⟨1⟩).2.2.1 (by simp)⟩

/-- C6: on a backend `MoveLatency(v)` event the gateway publishes
`connections/<max(0, connection_count) as u32>`, stores `v` in the mlat
atomic (so a subsequent read returns `v`), and sends the mlat frame for
`v` to exactly the senders in `watching_mlat`. -/
theorem received_move_latency_spec :
    ∀ (app : App) (v : Nat),
      (received_move_latency app v).1.mlat = v
      ∧ (received_move_latency app v).2.1
          = [LilaIn.Connections (max 0 app.connection_count).toNat]
      ∧ (∀ s ∈ app.watching_mlat,
          (s, socketInMlatJson v) ∈ (received_move_latency app v).2.2)
      ∧ (∀ s j, (s, j) ∈ (received_move_latency app v).2.2
          → s ∈ app.watching_mlat ∧ j = socketInMlatJson v) := by
  intro app v
  refine ⟨rfl, rfl, ?_, ?_⟩
  · intro s hs
    exact List.mem_map_of_mem _ hs
  · intro s j hj
    obtain ⟨x, hx, he⟩ := List.mem_map.mp hj
    obtain ⟨h1, h2⟩ := Prod.mk.injEq .. ▸ he
    exact ⟨h1 ▸ hx, h2.symm⟩

/-- Witness for `received_move_latency_spec` at a one-watcher state with
a negative connection count. -/
theorem received_move_latency_spec_w :
    ((⟨7⟩ : Sender) ∈ ({ mlat := 0, connection_count := -3, watching_mlat := [⟨7⟩] } : App).watching_mlat)
    ∧ (received_move_latency { mlat := 0, connection_count := -3, watching_mlat := [⟨7⟩] } 123).1.mlat = 123
    ∧ ((⟨7⟩ : Sender), socketInMlatJson 123)
        ∈ (received_move_latency { mlat := 0, connection_count := -3, watching_mlat := [⟨7⟩] } 123).2.2 :=
  ⟨by simp,
   (received_move_latency_spec { mlat := 0, connection_count := -3, watching_mlat := [⟨7⟩] } 123).1,
   (received_move_latency_spec { mlat := 0, connection_count := -3, watching_mlat := [⟨7⟩] } 123).2.2.1 ⟨7⟩ (by simp)⟩

/-- A concrete engine answer: a position whose side to move has two
origin squares with legal moves — knights on b1 (square 1, moves to
a3 = 16 and c3 = 18) and g1 (square 6, moves to f3 = 21 and h3 = 23). -/
def knightsPosition : Position :=
  { legalList :=
      [ { from_sq := some 1, to_sq := 16 }, { from_sq := some 1, to_sq := 18 },
        { from_sq := some 6, to_sq := 21 }, { from_sq := some 6, to_sq := 23 } ]
    usList := [1, 6] }

/-- An engine accepting the single FEN string `"knights"` (for any
variant) and answering with `knightsPosition`. -/
def knightsEngine : Engine :=
  { parseFen := fun s =>
      if s = "knights" then
        some { epd_core := "knights", pockets := none, remaining_checks := none }
      else none
    position := fun _ _ => some knightsPosition }

/-- C1, the failing evaluation: piotr of the groups is `b → qs` and
`g → vx`, so the claimed (and spec-mandated) encoding is `"bqs gvx"` —
origin groups separated by one space, no leading space.  The code's
`if mem::replace(&mut first, false) { dests.push(' ') }` tests the *old*
value of `first`, so it emits the space before the first group and none
between groups, producing `" bqsgvx"`. -/
theorem getDests_separator_inverted :
    GetDests.respond knightsEngine (fun _ => none)
        { variant := none, fen := "knights", path := "p", chapter_id := none }
      = .ok { path := "p", dests := " bqsgvx", opening := none, chapter_id := none } := by
  rfl

/-- The opening book used to exercise the gating of the responders:
one entry under the EPD `"book-epd"`. -/
def antichessDb : String → Option Opening := fun s =>
  if s = "book-epd" then some { eco := "A00", name := "Book Opening" } else none

/-- An engine accepting the single FEN string `"book-fen"` (for any
variant, Antichess included) whose stripped EPD is the book entry. -/
def antichessEngine : Engine :=
  { parseFen := fun s =>
      if s = "book-fen" then
        some { epd_core := "book-epd", pockets := none, remaining_checks := none }
      else none
    position := fun _ _ => some { legalList := [], usList := [] } }

/-- C5, counterexample: an `anaDests` request for Antichess — not an
opening-sensible variant — whose stripped EPD is in the book still gets
the opening attached: `GetDests::respond` computes
`opening: lookup_opening(fen)` with no variant gate (only
`GetOpening::respond` is gated). -/
theorem anaDests_opening_not_gated :
    (effectiveOf VariantKey.Antichess).is_opening_sensible = false
    ∧ GetDests.respond antichessEngine antichessDb
        { variant := some VariantKey.Antichess, fen := "book-fen", path := "p", chapter_id := none }
      = .ok { path := "p", dests := ""
              opening := some { eco := "A00", name := "Book Opening" }
              chapter_id := none } :=
  ⟨rfl, rfl⟩

/-- C5, amended: `GetOpening::respond` returns no opening whenever the
effective variant is not opening-sensible (with FromPosition and
Chess960 collapsing to Standard), but `GetDests::respond` attaches
`lookup_opening(fen)` regardless of the variant whenever the FEN parses
and the position is valid. -/
theorem opening_gating_spec :
    (∀ (engine : Engine) (db : String → Option Opening) (req : GetOpening),
        (effectiveOf (req.variant.getD VariantKey.Standard)).is_opening_sensible = false
        → GetOpening.respond engine db req = none)
    ∧ (∀ (engine : Engine) (db : String → Option Opening) (req : GetDests)
        (fen : Fen) (pos : Position),
        engine.parseFen req.fen = some fen
        → engine.position (effectiveOf (req.variant.getD VariantKey.Standard)) fen = some pos
        → GetDests.respond engine db req
            = .ok { path := req.path, dests := destsString pos,
                    opening := lookup_opening db fen, chapter_id := req.chapter_id }) := by
  constructor
  · intro engine db req h
    unfold GetOpening.respond
    simp [h]
  · intro engine db req fen pos h1 h2
    unfold GetDests.respond
    simp only [h1, h2]

/-- Witness for `opening_gating_spec` at the Antichess request of the
counterexample. -/
theorem opening_gating_spec_w :
    ((effectiveOf ((some VariantKey.Antichess).getD VariantKey.Standard)).is_opening_sensible = false)
    ∧ GetOpening.respond antichessEngine antichessDb
        { variant := some VariantKey.Antichess, path := "p", fen := "book-fen" } = none
    ∧ GetDests.respond antichessEngine antichessDb
        { variant := some VariantKey.Antichess, fen := "book-fen", path := "p", chapter_id := none }
      = .ok { path := "p", dests := destsString { legalList := [], usList := [] }
              opening := lookup_opening antichessDb
                { epd_core := "book-epd", pockets := none, remaining_checks := none }
              chapter_id := none } :=
  ⟨rfl,
   opening_gating_spec.1 antichessEngine antichessDb
     { variant := some VariantKey.Antichess, path := "p", fen := "book-fen" } rfl,
   opening_gating_spec.2 antichessEngine antichessDb
     { variant := some VariantKey.Antichess, fen := "book-fen", path := "p", chapter_id := none }
     { epd_core := "book-epd", pockets := none, remaining_checks := none }
     { legalList := [], usList := [] } rfl rfl⟩

/-- C4: a `notified` (resp. `following_onlines`) received while the auth
state is Requested only sets the corresponding pending flag and publishes
nothing; when `set_user` next moves the socket out of Requested, each set
flag is replayed exactly once — one `notified/<uid>` (resp.
`friends/<uid>`) when the new state is Authenticated(uid), nothing when it
is Anonymous — and the flag is cleared by the replay. -/
theorem deferred_intents_spec :
    (∀ sock : UserSocketSt, sock.auth = .Requested
      → on_notified sock = ({ sock with pending_notified := true }, [])
        ∧ on_following_onlines sock = ({ sock with pending_following_onlines := true }, []))
    ∧ (∀ (bu : ByUser) (sock : UserSocketSt) (uid : UserId), sock.auth = .Requested
      → ∃ bu2 sock2 pubs, set_user bu sock (some uid) = some (bu2, sock2, pubs)
        ∧ pubs.count (LilaIn.Notified uid) = (if sock.pending_notified then 1 else 0)
        ∧ pubs.count (LilaIn.Friends uid) = (if sock.pending_following_onlines then 1 else 0)
        ∧ (∀ u, LilaIn.Notified u ∈ pubs → u = uid)
        ∧ (∀ u, LilaIn.Friends u ∈ pubs → u = uid)
        ∧ sock2.pending_notified = false
        ∧ sock2.pending_following_onlines = false)
    ∧ (∀ (bu : ByUser) (sock : UserSocketSt), sock.auth = .Requested
      → ∃ bu2 sock2 pubs, set_user bu sock none = some (bu2, sock2, pubs)
        ∧ (∀ u, LilaIn.Notified u ∉ pubs)
        ∧ (∀ u, LilaIn.Friends u ∉ pubs)
        ∧ sock2.pending_notified = false
        ∧ sock2.pending_following_onlines = false) := by
  refine ⟨?_, ?_, ?_⟩
  · rintro ⟨sender, auth, pn, pf⟩ h
    cases h
    constructor <;> rfl
  · rintro bu ⟨sender, auth, pn, pf⟩ uid h
    cases h
    cases pn <;> cases pf <;>
      refine ⟨_, _, _, rfl, ?_, ?_, ?_, ?_, ?_, ?_⟩ <;>
      by_cases hb : bu uid = [] <;>
      simp [hb, on_notified, on_following_onlines]
  · rintro bu ⟨sender, auth, pn, pf⟩ h
    cases h
    cases pn <;> cases pf <;>
      refine ⟨_, _, _, rfl, ?_, ?_, ?_, ?_⟩ <;>
      simp [on_notified, on_following_onlines]

/-- Witness for `deferred_intents_spec`: a Requested socket with
`pending_notified` set replays exactly one `notified/bob` when the lookup
resolves to `bob`. -/
theorem deferred_intents_spec_w :
    (({ sender := ⟨3⟩, auth := .Requested, pending_notified := true,
        pending_following_onlines := false } : UserSocketSt).auth = .Requested)
    ∧ ∃ bu2 sock2 pubs,
        set_user (fun _ => []) { sender := ⟨3⟩, auth := .Requested, pending_notified := true,
                                 pending_following_onlines := false } (some "bob")
          = some (bu2, sock2, pubs)
        ∧ pubs.count (LilaIn.Notified "bob") = 1 := by
  refine ⟨rfl, ?_⟩
  obtain ⟨bu2, sock2, pubs, h1, h2, -⟩ :=
    deferred_intents_spec.2.1 (fun _ => [])
      { sender := ⟨3⟩, auth := .Requested, pending_notified := true,
        pending_following_onlines := false } "bob" rfl
  exact ⟨bu2, sock2, pubs, h1, by simpa using h2⟩

/-- Two sockets of user `"alice"` authenticate back-to-back and then close
in order, starting from an empty `by_user` table; the published messages
of the four `set_user` calls, in order. -/
def twoSocketScenario : Option (List LilaIn) :=
  let sockA : UserSocketSt :=
    { sender := ⟨1⟩, auth := .Requested, pending_notified := false,
      pending_following_onlines := false }
  let sockB : UserSocketSt :=
    { sender := ⟨2⟩, auth := .Requested, pending_notified := false,
      pending_following_onlines := false }
  match set_user (fun _ => []) sockA (some "alice") with
  | none => none
  | some (bu1, sockA, p1) =>
    match set_user bu1 sockB (some "alice") with
    | none => none
    | some (bu2, sockB, p2) =>
      match set_user bu2 sockA none with
      | none => none
      | some (bu3, _, p3) =>
        match set_user bu3 sockB none with
        | none => none
        | some (_, _, p4) => some (p1 ++ p2 ++ p3 ++ p4)

/-- C2: `set_user(Some uid)` on a socket not previously authenticated
appends the sender to `by_user[uid]` and publishes `connect/<uid>` iff
the entry was previously absent; `set_user(None)` on an
Authenticated(uid) socket (the close path) removes the sender from
`by_user[uid]`, emptying the entry and publishing `disconnect/<uid>`
exactly when the sender was its last element; consequently two sockets of
the same user opened and then closed publish exactly one connect and one
disconnect. -/
theorem set_user_connect_disconnect :
    (∀ (bu : ByUser) (sock : UserSocketSt) (uid : UserId),
        (∀ u, sock.auth ≠ .Authenticated u)
        → ∃ bu2 sock2 pubs, set_user bu sock (some uid) = some (bu2, sock2, pubs)
          ∧ bu2 uid = bu uid ++ [sock.sender]
          ∧ sock2.auth = .Authenticated uid
          ∧ (LilaIn.Connect uid ∈ pubs ↔ bu uid = [])
          ∧ (∀ u, LilaIn.Disconnect u ∉ pubs))
    ∧ (∀ (bu : ByUser) (sock : UserSocketSt) (uid : UserId),
        sock.auth = .Authenticated uid
        → sock.sender ∈ bu uid
        → ∃ bu2 sock2 pubs, set_user bu sock none = some (bu2, sock2, pubs)
          ∧ cnt (bu2 uid) sock.sender.token = cnt (bu uid) sock.sender.token - 1
          ∧ ((bu uid).length = 1 → bu2 uid = [])
          ∧ (pubs = if (bu uid).length = 1 then [LilaIn.Disconnect uid] else [])
          ∧ (∀ u, LilaIn.Connect u ∉ pubs))
    ∧ twoSocketScenario = some [LilaIn.Connect "alice", LilaIn.Disconnect "alice"] := by
  refine ⟨?_, ?_, ?_⟩
  · rintro bu ⟨sender, auth, pn, pf⟩ uid h
    cases auth with
    | Authenticated u => exact absurd rfl (h u)
    | Requested =>
      cases pn <;> cases pf <;>
        refine ⟨_, _, _, rfl, ?_, ?_, ?_, ?_⟩ <;>
        by_cases hb : bu uid = [] <;>
        simp [hb, on_notified, on_following_onlines]
    | Anonymous =>
      refine ⟨_, _, _, rfl, ?_, ?_, ?_, ?_⟩ <;>
      by_cases hb : bu uid = [] <;>
      simp [hb]
  · rintro bu ⟨sender, auth, pn, pf⟩ uid h hmem
    cases h
    have hex : ∃ x ∈ bu uid, (fun s => decide (s.token = sender.token)) x = true :=
      ⟨sender, hmem, by simp⟩
    have hsome : ((bu uid).findIdx? (fun s => decide (s.token = sender.token))).isSome := by
      rw [List.findIdx?_isSome]
      exact List.any_eq_true.mpr hex
    obtain ⟨i, hi⟩ := Option.isSome_iff_exists.mp hsome
    obtain ⟨hlt, hp, -⟩ := List.findIdx?_eq_some_iff_getElem.mp hi
    have hcnt : cnt (swapRemove (bu uid) i) sender.token
        = cnt (bu uid) sender.token - 1 := by
      have := countP_swapRemove (fun s => decide (s.token = sender.token)) (bu uid) i hlt
      simpa [cnt, hp] using this
    have hlen : (swapRemove (bu uid) i).length = (bu uid).length - 1 :=
      length_swapRemove (bu uid) i hlt
    have hempty : swapRemove (bu uid) i = [] ↔ (bu uid).length = 1 := by
      rw [← List.length_eq_zero]
      omega
    by_cases he : swapRemove (bu uid) i = []
    · refine ⟨_, _, _, by simp only [set_user, hi]; rw [if_pos he], ?_, ?_, ?_, ?_⟩
      · simpa using (he ▸ hcnt)
      · intro _
        simp
      · simp [hempty.mp he]
      · simp
    · refine ⟨_, _, _, by simp only [set_user, hi]; rw [if_neg he], ?_, ?_, ?_, ?_⟩
      · simpa using hcnt
      · intro hone
        exact absurd (hempty.mpr hone) he
      · rw [if_neg (fun hone => he (hempty.mpr hone))]
      · simp
  · rfl

/-- Witness for `set_user_connect_disconnect`: the first-connection case
from an empty table and the last-close case from a one-entry table. -/
theorem set_user_connect_disconnect_w :
    (∃ bu2 sock2 pubs,
        set_user (fun _ => []) { sender := ⟨1⟩, auth := .Requested, pending_notified := false,
                                 pending_following_onlines := false } (some "alice")
          = some (bu2, sock2, pubs)
        ∧ LilaIn.Connect "alice" ∈ pubs)
    ∧ (∃ bu2 sock2 pubs,
        set_user (fun u => if u = "alice" then [⟨1⟩] else [])
            { sender := ⟨1⟩, auth := .Authenticated "alice", pending_notified := false,
              pending_following_onlines := false } none
          = some (bu2, sock2, pubs)
        ∧ pubs = [LilaIn.Disconnect "alice"]) := by
  constructor
  · obtain ⟨bu2, sock2, pubs, h1, -, -, h4, -⟩ :=
      set_user_connect_disconnect.1 (fun _ => [])
        { sender := ⟨1⟩, auth := .Requested, pending_notified := false,
          pending_following_onlines := false } "alice" (by intro u h; cases h)
    exact ⟨bu2, sock2, pubs, h1, h4.mpr rfl⟩
  · obtain ⟨bu2, sock2, pubs, h1, -, -, h4, -⟩ :=
      set_user_connect_disconnect.2.1 (fun u => if u = "alice" then [⟨1⟩] else [])
        { sender := ⟨1⟩, auth := .Authenticated "alice", pending_notified := false,
          pending_following_onlines := false } "alice" rfl (by simp)
    refine ⟨bu2, sock2, pubs, h1, ?_⟩
    simpa using h4

/-- The per-socket routing invariant: this socket's sender occurs in
`by_game[g]` once when it watches `g` and not at all otherwise. -/
def watchInv (sender : Sender) (st : WatchCtx) : Prop :=
  ∀ g, cnt (st.by_game g) sender.token = if g ∈ st.watching then 1 else 0

lemma watchInv_start_one (sender : Sender) (st : WatchCtx) (g : GameId)
    (h : watchInv sender st) : watchInv sender (start_watching_one sender st g).1 := by
  intro g2
  unfold start_watching_one
  by_cases hg : g ∈ st.watching
  · simpa [hg] using h g2
  · by_cases he : g2 = g
    · subst he
      have h0 : cnt (st.by_game g2) sender.token = 0 := by simpa [hg] using h g2
      simp [hg, cnt, List.countP_append, List.countP_cons]
      simpa [cnt] using h0
    · have := h g2
      simp [hg, he]
      simpa [he] using this

lemma watchInv_start (sender : Sender) (st : WatchCtx) (gs : List GameId)
    (h : watchInv sender st) : watchInv sender (start_watching sender st gs).1 := by
  induction gs generalizing st with
  | nil => simpa [start_watching]
  | cons g rest ih =>
    simp only [start_watching]
    exact ih _ (watchInv_start_one sender st g h)

lemma close_games_spec (tok : Nat) (bg : ByGame) (gs : List GameId)
    (hn : gs.Nodup)
    (hinv : ∀ g, cnt (bg g) tok = if g ∈ gs then 1 else 0) :
    ∃ bg2 pubs, close_games tok bg gs = some (bg2, pubs)
      ∧ (∀ g, cnt (bg2 g) tok = 0)
      ∧ (∀ g, LilaIn.Unwatch g ∈ pubs ↔ g ∈ gs ∧ (bg g).length = 1) := by
  induction gs generalizing bg with
  | nil =>
    exact ⟨bg, [], rfl, fun g => by simpa using hinv g, by simp⟩
  | cons g rest ih =>
    have hnotin : g ∉ rest := (List.nodup_cons.mp hn).1
    have h1 : cnt (bg g) tok = 1 := by simpa using hinv g
    have hex : ∃ x ∈ bg g, (fun s => decide (s.token = tok)) x = true := by
      have : 0 < (bg g).countP (fun s => decide (s.token = tok)) := by
        simp only [cnt] at h1
        omega
      exact List.countP_pos_iff.mp this
    have hsome : ((bg g).findIdx? (fun s => decide (s.token = tok))).isSome := by
      rw [List.findIdx?_isSome]
      exact List.any_eq_true.mpr hex
    obtain ⟨i, hi⟩ := Option.isSome_iff_exists.mp hsome
    obtain ⟨hlt, hp, -⟩ := List.findIdx?_eq_some_iff_getElem.mp hi
    have hcnt0 : cnt (swapRemove (bg g) i) tok = 0 := by
      have h2 := countP_swapRemove (fun s => decide (s.token = tok)) (bg g) i hlt
      have h3 : (bg g).countP (fun s => decide (s.token = tok)) = 1 := by
        simpa [cnt] using h1
      simpa [cnt, hp, h3] using h2
    have hlen : (swapRemove (bg g) i).length = (bg g).length - 1 :=
      length_swapRemove (bg g) i hlt
    have hempty : swapRemove (bg g) i = [] ↔ (bg g).length = 1 := by
      rw [← List.length_eq_zero, hlen]
      omega
    have hinv2 : ∀ g2, cnt ((fun x => if x = g then swapRemove (bg g) i else bg x) g2) tok
        = if g2 ∈ rest then 1 else 0 := by
      intro g2
      by_cases he : g2 = g
      · subst he
        simp [hcnt0, hnotin]
      · have h2 := hinv g2
        simp only [List.mem_cons, he, false_or] at h2
        simpa [he] using h2
    obtain ⟨bg2, pubs2, hcg, hz, hmem⟩ := ih _ ((List.nodup_cons.mp hn).2) hinv2
    refine ⟨bg2, (if swapRemove (bg g) i = [] then [LilaIn.Unwatch g] else []) ++ pubs2,
      ?_, hz, ?_⟩
    · simp only [close_games, hi, hcg]
    · intro g2
      by_cases he : g2 = g
      · subst he
        constructor
        · intro hin
          rcases List.mem_append.mp hin with hin | hin
          · refine ⟨List.mem_cons_self _ _, ?_⟩
            split at hin
            · exact hempty.mp (by assumption)
            · simp at hin
          · obtain ⟨hr, -⟩ := (hmem _).mp hin
            exact absurd hr hnotin
        · rintro ⟨-, hl⟩
          refine List.mem_append.mpr (.inl ?_)
          rw [if_pos (hempty.mpr hl)]
          simp
      · constructor
        · intro hin
          rcases List.mem_append.mp hin with hin | hin
          · split at hin
            · simp only [List.mem_singleton] at hin
              injection hin with h3
              exact absurd h3 he
            · simp at hin
          · obtain ⟨hr, hl⟩ := (hmem g2).mp hin
            refine ⟨List.mem_cons_of_mem _ hr, ?_⟩
            simpa [he] using hl
        · rintro ⟨hin, hl⟩
          rcases List.mem_cons.mp hin with h | hr
          · exact absurd h he
          · exact List.mem_append.mpr (.inr ((hmem g2).mpr ⟨hr, by simp [he, hl]⟩))

/-- C3: a game already in the socket's `watching` set makes the
`startWatching` iteration a complete no-op; a fresh game appends the
sender to `by_game[g]` and publishes `watch/<g>` iff the entry was
previously absent; the loop preserves the per-socket invariant (so a
sender appears at most once in each `by_game` list); on close, the sender
is removed from `by_game[g]` for every watched `g` and `unwatch/<g>` is
published exactly for the lists it was the last element of. -/
theorem startWatching_spec :
    (∀ (sender : Sender) (st : WatchCtx) (g : GameId), g ∈ st.watching
        → start_watching_one sender st g = (st, [], []))
    ∧ (∀ (sender : Sender) (st : WatchCtx) (g : GameId), g ∉ st.watching
        → (start_watching_one sender st g).1.by_game g = st.by_game g ++ [sender]
          ∧ ((start_watching_one sender st g).2.1
              = if st.by_game g = [] then [LilaIn.Watch g] else []))
    ∧ (∀ (sender : Sender) (st : WatchCtx) (gs : List GameId),
        watchInv sender st → watchInv sender (start_watching sender st gs).1)
    ∧ (∀ (sender : Sender) (st : WatchCtx), watchInv sender st → st.watching.Nodup
        → ∃ bg2 pubs, close_games sender.token st.by_game st.watching = some (bg2, pubs)
          ∧ (∀ g, cnt (bg2 g) sender.token = 0)
          ∧ (∀ g, LilaIn.Unwatch g ∈ pubs ↔ g ∈ st.watching ∧ (st.by_game g).length = 1))
    ∧ (∀ (sender : Sender) (st : WatchCtx) (g : GameId),
        watchInv sender st → cnt (st.by_game g) sender.token ≤ 1) := by
  refine ⟨?_, ?_, ?_, ?_, ?_⟩
  · intro sender st g hg
    simp [start_watching_one, hg]
  · intro sender st g hg
    constructor <;> simp [start_watching_one, hg]
  · exact fun sender st gs h => watchInv_start sender st gs h
  · exact fun sender st h hn => close_games_spec sender.token st.by_game st.watching hn h
  · intro sender st g h
    rw [h g]
    split <;> omega

/-- Witness for `startWatching_spec`: watching a fresh game from the
empty state, and closing a socket watching one game with itself as the
only watcher. -/
theorem startWatching_spec_w :
    ((start_watching_one ⟨1⟩
        { watching := [], by_game := fun _ => [], watched_games := fun _ => none }
        ⟨"g1"⟩).1.by_game ⟨"g1"⟩ = [⟨1⟩])
    ∧ ∃ bg2 pubs,
        close_games 1 (fun x => if x = ⟨"g1"⟩ then [⟨1⟩] else []) [⟨"g1"⟩]
          = some (bg2, pubs)
        ∧ (LilaIn.Unwatch ⟨"g1"⟩ ∈ pubs) := by
  have hinv : watchInv ⟨1⟩
      { watching := [⟨"g1"⟩], by_game := fun x => if x = ⟨"g1"⟩ then [⟨1⟩] else [],
        watched_games := fun _ => none } := by
    intro g
    by_cases h : g = ⟨"g1"⟩ <;> simp [h, cnt]
  constructor
  · have h := (startWatching_spec.2.1 ⟨1⟩
      { watching := [], by_game := fun _ => [], watched_games := fun _ => none }
      ⟨"g1"⟩ (by simp)).1
    simpa using h
  · obtain ⟨bg2, pubs, h1, -, h3⟩ := startWatching_spec.2.2.2.1 ⟨1⟩
      { watching := [⟨"g1"⟩], by_game := fun x => if x = ⟨"g1"⟩ then [⟨1⟩] else [],
        watched_games := fun _ => none } hinv (by simp)
    exact ⟨bg2, pubs, h1, (h3 ⟨"g1"⟩).mpr ⟨by simp, by simp⟩⟩

end LilaSocket
